import Mathlib

/-!
Verification of the Magenta `InterruptContext` LLVM module pass
(`src/MagentaPasses/MagentaInterruptContext/MagentaInterruptContext.cpp`).

The pass explores all paths from a source function to a set of sink
functions through the module's call graph and control-flow graphs, and
prints a warning line for each first-discovered path that reaches a
black-listed function.

Shallow embedding conventions:
* `Function*` and `BasicBlock*` identities (the pointers stored in
  `FuncPtrSet` / `BasicBlockPtrSet`) are modelled as indices (`Nat`) into
  the module's function list and block list.
* The external demangler `__cxxabiv1::__cxa_demangle` is modelled as an
  oracle `demangle : String → Option String` carried by the environment.
* `errs()` output is modelled as the list of emitted lines, in order;
  every line the program prints goes through `warnOnCallChain`, which
  prints one line (terminated by `"\n"` in the real stream).
* The C++ recursion is modelled with an explicit fuel argument; all
  theorems either hold for every fuel or are stated above the proved
  fuel bound `visitBound` at which the result is shown to stabilize.
* The `bool` results keep the C++ convention: `true` = Clean (no
  black-listed function reached), `false` = ViolationFound.
-/

namespace InterruptContext

/-- A single instruction, as seen by `examineBlock`: either a call
instruction (`CallInst`), carrying the statically known called function
when `CInst->getCalledFunction()` is non-null (`none` models an indirect
call), or any other instruction (for which `dyn_cast<CallInst>` fails). -/
inductive Inst where
  | call (callee : Option Nat)
  | other
deriving DecidableEq, Repr

/-- A basic block: its ordered instruction list and its terminator.
`term = none` models `Block.getTerminator() == nullptr`; otherwise the
terminator carries its ordered successor list. -/
structure BasicBlock where
  insts : List Inst
  term : Option (List Nat)
deriving DecidableEq, Repr

/-- A function of the module: its raw symbol name (`F->getName()`) and
its ordered list of basic blocks; `body = []` models `F->size() == 0`
(a declaration with no body), and the head of a non-empty `body` is the
entry block (`F->getEntryBlock()`). -/
structure Func where
  name : String
  body : List Nat
deriving DecidableEq, Repr

/-- The immutable program representation plus the external demangling
collaborator. Functions and blocks are addressed by their index. -/
structure Env where
  funcs : List Func
  blocks : List BasicBlock
  demangle : String → Option String

/-- The configuration constants of the pass (the `const` members
`BlackListSet`, `SinkFunctionSet`, `SourceFunction`). -/
structure Cfg where
  BlackListSet : List String
  SinkFunctionSet : List String
  SourceFunction : String

/-- The configuration hard-coded in the source. -/
def theCfg : Cfg :=
  { BlackListSet := ["mutex_acquire", "mutex_acquire_timeout",
                     "mutex_acquire_timeout_internal"]
    SinkFunctionSet := ["thread_preempt", "panic", "_panic"]
    SourceFunction := "x86_exception_handler" }

/-- The mutable analyzer state: `BasicBlockPtrSet`, `FuncPtrSet`,
`FunctionChain`, and the lines printed to `errs()` so far. -/
structure St where
  BasicBlockPtrSet : List Nat
  FuncPtrSet : List Nat
  FunctionChain : List String
  out : List String
deriving DecidableEq, Repr

/-- The state of a freshly constructed pass object. -/
def initSt : St := ⟨[], [], [], []⟩

/-- The display name for a function: the demangled name when
`__cxa_demangle` succeeds, the raw symbol name unchanged otherwise. -/
def resolvedName (env : Env) (F : Func) : String :=
  match env.demangle F.name with
  | some d => d
  | none => F.name

/-- The single diagnostic line printed by `warnOnCallChain` for a given
chain (without the terminating newline). -/
def reportLine (chain : List String) : String :=
  chain.foldl (fun acc f => acc ++ " " ++ f)
    "Reached a black-listed function via the following call chain:"

/-- Model of `warnOnCallChain`: prints one line containing the current chain. -/
def warnOnCallChain (st : St) : St :=
  { st with out := st.out ++ [reportLine st.FunctionChain] }

mutual

/-- Model of `traverseFunction`, fuel-indexed. Returns `false` iff a black-listed
function was reached along some path explored by this visit. -/
def traverseFunction (cfg : Cfg) (env : Env) :
    Nat → Nat → St → Bool × St
  | 0, _, st => (true, st)
  | fuel + 1, fid, st =>
    if fid ∈ st.FuncPtrSet then (true, st)
    else
      match env.funcs.get? fid with
      | none => (true, st)
      | some F =>
        let Name := resolvedName env F
        if Name ∈ cfg.SinkFunctionSet then (true, st)
        else
          let st1 : St := { st with FunctionChain := st.FunctionChain ++ [Name] }
          if Name ∈ cfg.BlackListSet then
            let st2 := warnOnCallChain st1
            (false, { st2 with FunctionChain := st2.FunctionChain.dropLast })
          else
            let st2 : St := { st1 with FuncPtrSet := fid :: st1.FuncPtrSet }
            match F.body with
            | [] => (true, { st2 with FunctionChain := st2.FunctionChain.dropLast })
            | entry :: _ =>
              let r := traverseBasicBlock cfg env fuel entry st2
              (r.1, { r.2 with FunctionChain := r.2.FunctionChain.dropLast })

/-- Model of `traverseBasicBlock`, fuel-indexed. -/
def traverseBasicBlock (cfg : Cfg) (env : Env) :
    Nat → Nat → St → Bool × St
  | 0, _, st => (true, st)
  | fuel + 1, bid, st =>
    if bid ∈ st.BasicBlockPtrSet then (true, st)
    else
      match env.blocks.get? bid with
      | none => (true, st)
      | some B =>
        let st1 : St := { st with BasicBlockPtrSet := bid :: st.BasicBlockPtrSet }
        let r := examineBlock cfg env fuel B.insts st1
        match B.term with
        | none => r
        | some succs =>
          let r2 := traverseBlocks cfg env fuel succs r.2
          (r.1 && r2.1, r2.2)

/-- The instruction loop of `examineBlock`: for each direct call whose
target is statically known, start a DFS from the called function. -/
def examineBlock (cfg : Cfg) (env : Env) :
    Nat → List Inst → St → Bool × St
  | 0, _, st => (true, st)
  | _ + 1, [], st => (true, st)
  | fuel + 1, .call (some fid) :: rest, st =>
    let r := traverseFunction cfg env fuel fid st
    let r2 := examineBlock cfg env fuel rest r.2
    (r.1 && r2.1, r2.2)
  | fuel + 1, .call none :: rest, st => examineBlock cfg env fuel rest st
  | fuel + 1, .other :: rest, st => examineBlock cfg env fuel rest st

/-- The successor loop of `traverseBasicBlock`. -/
def traverseBlocks (cfg : Cfg) (env : Env) :
    Nat → List Nat → St → Bool × St
  | 0, _, st => (true, st)
  | _ + 1, [], st => (true, st)
  | fuel + 1, s :: rest, st =>
    let r := traverseBasicBlock cfg env fuel s st
    let r2 := traverseBlocks cfg env fuel rest r.2
    (r.1 && r2.1, r2.2)

end

/-- Model of `Module::getFunction`: look up a function by its raw symbol name. -/
def getFunction (env : Env) (name : String) : Option Nat :=
  env.funcs.findIdx? (fun F => F.name = name)

/-- Model of `runOnModule`: look up the source function; if present, traverse
from it; otherwise do nothing. Returns the final analyzer state. -/
def runOnModule (cfg : Cfg) (env : Env) (fuel : Nat) : St :=
  match getFunction env cfg.SourceFunction with
  | some fid => (traverseFunction cfg env fuel fid initSt).2
  | none => initSt

/-! ### Derived notions used by the verification -/

/-- How one analyzer state may evolve into another across a traversal
call: the visited sets only grow, the call chain is restored, and the
output is extended by zero or more report lines. -/
def Evolves (st st' : St) : Prop :=
  st.FuncPtrSet ⊆ st'.FuncPtrSet ∧
  st.BasicBlockPtrSet ⊆ st'.BasicBlockPtrSet ∧
  st'.FunctionChain = st.FunctionChain ∧
  ∃ new, st'.out = st.out ++ new ∧ ∀ line ∈ new, ∃ ch, line = reportLine ch

/-- Number of function and block identities of the module not yet in
the visited sets: the decreasing measure of the traversal. -/
def unvis (env : Env) (st : St) : Nat :=
  ((Finset.range env.funcs.length).filter (fun i => i ∉ st.FuncPtrSet)).card +
  ((Finset.range env.blocks.length).filter (fun i => i ∉ st.BasicBlockPtrSet)).card

/-- Size of a basic block as far as fuel consumption is concerned. -/
def blockSize (B : BasicBlock) : Nat :=
  max B.insts.length (match B.term with | none => 0 | some s => s.length)

/-- The largest block size of the module. -/
def maxLen (env : Env) : Nat :=
  env.blocks.foldr (fun B acc => max (blockSize B) acc) 0

/-- Fuel that is provably sufficient for `traverseFunction` from state
`st`: any two fuels at least this large give the same result. -/
def visitBound (env : Env) (st : St) : Nat :=
  (maxLen env + 3) * unvis env st + 1

/-- Fuel sufficient for a whole `runOnModule` analysis of `env`. -/
def runBound (env : Env) : Nat := visitBound env initSt

/-! ### Small concrete modules used to evaluate the theorems -/

/-- Module where `x86_exception_handler` directly calls `mutex_acquire`. -/
def envLinear : Env :=
  { funcs := [⟨"x86_exception_handler", [0]⟩, ⟨"mutex_acquire", []⟩]
    blocks := [⟨[.call (some 1)], none⟩]
    demangle := fun _ => none }

/-- Module where `x86_exception_handler` calls itself: a one-node cycle. -/
def envCycle : Env :=
  { funcs := [⟨"x86_exception_handler", [0]⟩]
    blocks := [⟨[.call (some 0)], none⟩]
    demangle := fun _ => none }

/-- Module where `x86_exception_handler` calls `B` and `C`; both call `mutex_acquire`. -/
def envTwoCallers : Env :=
  { funcs := [⟨"x86_exception_handler", [0]⟩, ⟨"B", [1]⟩, ⟨"C", [2]⟩,
              ⟨"mutex_acquire", []⟩]
    blocks := [⟨[.call (some 1), .call (some 2)], none⟩,
               ⟨[.call (some 3)], none⟩, ⟨[.call (some 3)], none⟩]
    demangle := fun _ => none }

/-- A module that does not contain the source function. -/
def envNoSource : Env :=
  { funcs := [⟨"foo", []⟩], blocks := [], demangle := fun _ => none }

/-- A module whose `panic` (a sink) has a body calling itself. -/
def envSink : Env :=
  { funcs := [⟨"panic", [0]⟩], blocks := [⟨[.call (some 0)], none⟩]
    demangle := fun _ => none }

/-- A configuration whose sink set and blacklist overlap. -/
def cfgOverlap : Cfg :=
  { BlackListSet := ["spin_lock"], SinkFunctionSet := ["spin_lock"],
    SourceFunction := "main" }

/-- A module with one function named like the overlap above. -/
def envOverlap : Env :=
  { funcs := [⟨"spin_lock", []⟩], blocks := [], demangle := fun _ => none }

/-- A module with one mangled and one raw C name, and a demangler that
recognizes only the mangled one. -/
def envMangled : Env :=
  { funcs := [⟨"_ZN3Foo3barEv", []⟩, ⟨"mutex_acquire", []⟩]
    blocks := []
    demangle := fun s => if s = "_ZN3Foo3barEv" then some "Foo::bar()" else none }

/-! ### Conditional unfolding equations for the traversal -/

theorem traverseFunction_visited {fid : Nat} {st : St} (cfg : Cfg) (env : Env)
    (fuel : Nat) (h : fid ∈ st.FuncPtrSet) :
    traverseFunction cfg env (fuel + 1) fid st = (true, st) := by
  rw [traverseFunction]
  simp only [if_pos h]

theorem traverseFunction_notFound {fid : Nat} {st : St} (cfg : Cfg) (env : Env)
    (fuel : Nat) (h : fid ∉ st.FuncPtrSet) (hF : env.funcs.get? fid = none) :
    traverseFunction cfg env (fuel + 1) fid st = (true, st) := by
  rw [traverseFunction]
  simp only [if_neg h, hF]

theorem traverseFunction_sink {fid : Nat} {st : St} {F : Func} (cfg : Cfg)
    (env : Env) (fuel : Nat) (h : fid ∉ st.FuncPtrSet)
    (hF : env.funcs.get? fid = some F)
    (hs : resolvedName env F ∈ cfg.SinkFunctionSet) :
    traverseFunction cfg env (fuel + 1) fid st = (true, st) := by
  rw [traverseFunction]
  simp only [if_neg h, hF, if_pos hs]

theorem traverseFunction_blacklisted {fid : Nat} {st : St} {F : Func} (cfg : Cfg)
    (env : Env) (fuel : Nat) (h : fid ∉ st.FuncPtrSet)
    (hF : env.funcs.get? fid = some F)
    (hs : resolvedName env F ∉ cfg.SinkFunctionSet)
    (hb : resolvedName env F ∈ cfg.BlackListSet) :
    traverseFunction cfg env (fuel + 1) fid st =
      (false, ⟨st.BasicBlockPtrSet, st.FuncPtrSet, st.FunctionChain,
        st.out ++ [reportLine (st.FunctionChain ++ [resolvedName env F])]⟩) := by
  rw [traverseFunction]
  simp only [if_neg h, hF, if_neg hs, if_pos hb, warnOnCallChain]
  simp

theorem traverseFunction_noBody {fid : Nat} {st : St} {F : Func} (cfg : Cfg)
    (env : Env) (fuel : Nat) (h : fid ∉ st.FuncPtrSet)
    (hF : env.funcs.get? fid = some F)
    (hs : resolvedName env F ∉ cfg.SinkFunctionSet)
    (hb : resolvedName env F ∉ cfg.BlackListSet) (hB : F.body = []) :
    traverseFunction cfg env (fuel + 1) fid st =
      (true, ⟨st.BasicBlockPtrSet, fid :: st.FuncPtrSet, st.FunctionChain, st.out⟩) := by
  rw [traverseFunction]
  simp only [if_neg h, hF, if_neg hs, if_neg hb, hB]
  simp

theorem traverseFunction_descend {fid : Nat} {st : St} {F : Func} {entry : Nat}
    {rest : List Nat} (cfg : Cfg) (env : Env) (fuel : Nat)
    (h : fid ∉ st.FuncPtrSet) (hF : env.funcs.get? fid = some F)
    (hs : resolvedName env F ∉ cfg.SinkFunctionSet)
    (hb : resolvedName env F ∉ cfg.BlackListSet) (hB : F.body = entry :: rest) :
    traverseFunction cfg env (fuel + 1) fid st =
      ((traverseBasicBlock cfg env fuel entry
          ⟨st.BasicBlockPtrSet, fid :: st.FuncPtrSet,
           st.FunctionChain ++ [resolvedName env F], st.out⟩).1,
       ⟨(traverseBasicBlock cfg env fuel entry
          ⟨st.BasicBlockPtrSet, fid :: st.FuncPtrSet,
           st.FunctionChain ++ [resolvedName env F], st.out⟩).2.BasicBlockPtrSet,
        (traverseBasicBlock cfg env fuel entry
          ⟨st.BasicBlockPtrSet, fid :: st.FuncPtrSet,
           st.FunctionChain ++ [resolvedName env F], st.out⟩).2.FuncPtrSet,
        (traverseBasicBlock cfg env fuel entry
          ⟨st.BasicBlockPtrSet, fid :: st.FuncPtrSet,
           st.FunctionChain ++ [resolvedName env F], st.out⟩).2.FunctionChain.dropLast,
        (traverseBasicBlock cfg env fuel entry
          ⟨st.BasicBlockPtrSet, fid :: st.FuncPtrSet,
           st.FunctionChain ++ [resolvedName env F], st.out⟩).2.out⟩) := by
  rw [traverseFunction]
  simp only [if_neg h, hF, if_neg hs, if_neg hb, hB]

theorem traverseBasicBlock_visited {bid : Nat} {st : St} (cfg : Cfg) (env : Env)
    (fuel : Nat) (h : bid ∈ st.BasicBlockPtrSet) :
    traverseBasicBlock cfg env (fuel + 1) bid st = (true, st) := by
  rw [traverseBasicBlock]
  simp only [if_pos h]

theorem traverseBasicBlock_notFound {bid : Nat} {st : St} (cfg : Cfg) (env : Env)
    (fuel : Nat) (h : bid ∉ st.BasicBlockPtrSet)
    (hB : env.blocks.get? bid = none) :
    traverseBasicBlock cfg env (fuel + 1) bid st = (true, st) := by
  rw [traverseBasicBlock]
  simp only [if_neg h, hB]

theorem traverseBasicBlock_noTerm {bid : Nat} {st : St} {B : BasicBlock}
    (cfg : Cfg) (env : Env) (fuel : Nat) (h : bid ∉ st.BasicBlockPtrSet)
    (hB : env.blocks.get? bid = some B) (hT : B.term = none) :
    traverseBasicBlock cfg env (fuel + 1) bid st =
      examineBlock cfg env fuel B.insts
        ⟨bid :: st.BasicBlockPtrSet, st.FuncPtrSet, st.FunctionChain, st.out⟩ := by
  rw [traverseBasicBlock]
  simp only [if_neg h, hB, hT]

theorem traverseBasicBlock_term {bid : Nat} {st : St} {B : BasicBlock}
    {succs : List Nat} (cfg : Cfg) (env : Env) (fuel : Nat)
    (h : bid ∉ st.BasicBlockPtrSet) (hB : env.blocks.get? bid = some B)
    (hT : B.term = some succs) :
    traverseBasicBlock cfg env (fuel + 1) bid st =
      ((examineBlock cfg env fuel B.insts
          ⟨bid :: st.BasicBlockPtrSet, st.FuncPtrSet, st.FunctionChain, st.out⟩).1 &&
       (traverseBlocks cfg env fuel succs
          (examineBlock cfg env fuel B.insts
            ⟨bid :: st.BasicBlockPtrSet, st.FuncPtrSet, st.FunctionChain, st.out⟩).2).1,
       (traverseBlocks cfg env fuel succs
          (examineBlock cfg env fuel B.insts
            ⟨bid :: st.BasicBlockPtrSet, st.FuncPtrSet, st.FunctionChain, st.out⟩).2).2) := by
  rw [traverseBasicBlock]
  simp only [if_neg h, hB, hT]

theorem examineBlock_call (cfg : Cfg) (env : Env) (fuel fid : Nat)
    (rest : List Inst) (st : St) :
    examineBlock cfg env (fuel + 1) (.call (some fid) :: rest) st =
      ((traverseFunction cfg env fuel fid st).1 &&
       (examineBlock cfg env fuel rest (traverseFunction cfg env fuel fid st).2).1,
       (examineBlock cfg env fuel rest (traverseFunction cfg env fuel fid st).2).2) := rfl

theorem examineBlock_callNone (cfg : Cfg) (env : Env) (fuel : Nat)
    (rest : List Inst) (st : St) :
    examineBlock cfg env (fuel + 1) (.call none :: rest) st =
      examineBlock cfg env fuel rest st := rfl

theorem examineBlock_other (cfg : Cfg) (env : Env) (fuel : Nat)
    (rest : List Inst) (st : St) :
    examineBlock cfg env (fuel + 1) (.other :: rest) st =
      examineBlock cfg env fuel rest st := rfl

theorem examineBlock_nil (cfg : Cfg) (env : Env) (fuel : Nat) (st : St) :
    examineBlock cfg env (fuel + 1) [] st = (true, st) := rfl

theorem traverseBlocks_nil (cfg : Cfg) (env : Env) (fuel : Nat) (st : St) :
    traverseBlocks cfg env (fuel + 1) [] st = (true, st) := rfl

theorem traverseBlocks_cons (cfg : Cfg) (env : Env) (fuel s : Nat)
    (rest : List Nat) (st : St) :
    traverseBlocks cfg env (fuel + 1) (s :: rest) st =
      ((traverseBasicBlock cfg env fuel s st).1 &&
       (traverseBlocks cfg env fuel rest (traverseBasicBlock cfg env fuel s st).2).1,
       (traverseBlocks cfg env fuel rest (traverseBasicBlock cfg env fuel s st).2).2) := rfl

/-! ### Measure lemmas -/

theorem le_foldr_max {α : Type} (f : α → Nat) :
    ∀ (l : List α) (x : α), x ∈ l →
      f x ≤ l.foldr (fun a acc => max (f a) acc) 0 := by
  intro l
  induction l with
  | nil => intro x hx; exact absurd hx (List.not_mem_nil x)
  | cons a as ih =>
    intro x hx
    rcases List.mem_cons.mp hx with h | h
    · subst h
      exact le_max_left _ _
    · exact le_trans (ih x h) (le_max_right _ _)

theorem blockSize_le_maxLen (env : Env) {bid : Nat} {B : BasicBlock}
    (h : env.blocks.get? bid = some B) : blockSize B ≤ maxLen env :=
  le_foldr_max blockSize env.blocks B (List.get?_mem h)

theorem insts_length_le (env : Env) {bid : Nat} {B : BasicBlock}
    (h : env.blocks.get? bid = some B) : B.insts.length ≤ maxLen env :=
  le_trans (le_max_left _ _) (blockSize_le_maxLen env h)

theorem succs_length_le (env : Env) {bid : Nat} {B : BasicBlock}
    {succs : List Nat} (h : env.blocks.get? bid = some B)
    (hT : B.term = some succs) : succs.length ≤ maxLen env := by
  refine le_trans ?_ (blockSize_le_maxLen env h)
  rw [blockSize, hT]
  exact le_max_right _ _

theorem unvis_mono (env : Env) {st st' : St} (h : Evolves st st') :
    unvis env st' ≤ unvis env st := by
  apply Nat.add_le_add
  · apply Finset.card_le_card
    intro x hx
    simp only [Finset.mem_filter] at hx ⊢
    exact ⟨hx.1, fun hc => hx.2 (h.1 hc)⟩
  · apply Finset.card_le_card
    intro x hx
    simp only [Finset.mem_filter] at hx ⊢
    exact ⟨hx.1, fun hc => hx.2 (h.2.1 hc)⟩

theorem unvis_consF (env : Env) (st : St) {fid : Nat}
    (hlt : fid < env.funcs.length) (hni : fid ∉ st.FuncPtrSet)
    (ch o : List String) :
    unvis env ⟨st.BasicBlockPtrSet, fid :: st.FuncPtrSet, ch, o⟩ + 1 ≤
      unvis env st := by
  rw [unvis, unvis]
  have he : (Finset.range env.funcs.length).filter
        (fun i => i ∉ (⟨st.BasicBlockPtrSet, fid :: st.FuncPtrSet, ch, o⟩ : St).FuncPtrSet) =
      ((Finset.range env.funcs.length).filter (fun i => i ∉ st.FuncPtrSet)).erase fid := by
    ext x
    simp only [Finset.mem_filter, Finset.mem_erase, Finset.mem_range, List.mem_cons]
    tauto
  have hmem : fid ∈ (Finset.range env.funcs.length).filter (fun i => i ∉ st.FuncPtrSet) := by
    simp only [Finset.mem_filter, Finset.mem_range]
    exact ⟨hlt, hni⟩
  have hpos : 1 ≤ ((Finset.range env.funcs.length).filter (fun i => i ∉ st.FuncPtrSet)).card :=
    Finset.card_pos.mpr ⟨fid, hmem⟩
  rw [he, Finset.card_erase_of_mem hmem]
  dsimp only
  omega

theorem unvis_consB (env : Env) (st : St) {bid : Nat}
    (hlt : bid < env.blocks.length) (hni : bid ∉ st.BasicBlockPtrSet) :
    unvis env ⟨bid :: st.BasicBlockPtrSet, st.FuncPtrSet, st.FunctionChain, st.out⟩ + 1 ≤
      unvis env st := by
  rw [unvis, unvis]
  have he : (Finset.range env.blocks.length).filter
        (fun i => i ∉ (⟨bid :: st.BasicBlockPtrSet, st.FuncPtrSet, st.FunctionChain, st.out⟩ : St).BasicBlockPtrSet) =
      ((Finset.range env.blocks.length).filter (fun i => i ∉ st.BasicBlockPtrSet)).erase bid := by
    ext x
    simp only [Finset.mem_filter, Finset.mem_erase, Finset.mem_range, List.mem_cons]
    tauto
  have hmem : bid ∈ (Finset.range env.blocks.length).filter (fun i => i ∉ st.BasicBlockPtrSet) := by
    simp only [Finset.mem_filter, Finset.mem_range]
    exact ⟨hlt, hni⟩
  have hpos : 1 ≤ ((Finset.range env.blocks.length).filter (fun i => i ∉ st.BasicBlockPtrSet)).card :=
    Finset.card_pos.mpr ⟨bid, hmem⟩
  rw [he, Finset.card_erase_of_mem hmem]
  dsimp only
  omega

theorem bound_step {C a b k fuel : Nat} (hk : k + 1 ≤ C) (hab : a + 1 ≤ b)
    (h : C * b ≤ fuel) : C * a + k + 1 ≤ fuel := by
  have h1 : C * a + (k + 1) ≤ C * a + C := Nat.add_le_add_left hk _
  have h2 : C * a + C = C * (a + 1) := (Nat.mul_succ C a).symm
  have h3 : C * (a + 1) ≤ C * b := mul_le_mul_left' hab C
  calc C * a + k + 1 = C * a + (k + 1) := by rw [Nat.add_assoc]
    _ ≤ C * a + C := h1
    _ = C * (a + 1) := h2
    _ ≤ C * b := h3
    _ ≤ fuel := h

/-! ### State evolution -/

theorem evolves_refl (st : St) : Evolves st st :=
  ⟨fun _ h => h, fun _ h => h, rfl, [], by simp, by simp⟩

theorem evolves_trans {a b c : St} (h₁ : Evolves a b) (h₂ : Evolves b c) :
    Evolves a c := by
  obtain ⟨f₁, b₁, c₁, n₁, o₁, s₁⟩ := h₁
  obtain ⟨f₂, b₂, c₂, n₂, o₂, s₂⟩ := h₂
  refine ⟨fun x hx => f₂ (f₁ hx), fun x hx => b₂ (b₁ hx), c₂.trans c₁,
    n₁ ++ n₂, by rw [o₂, o₁, List.append_assoc], ?_⟩
  intro line hl
  rcases List.mem_append.mp hl with h | h
  · exact s₁ line h
  · exact s₂ line h

theorem evolves_consB (st : St) (bid : Nat) :
    Evolves st ⟨bid :: st.BasicBlockPtrSet, st.FuncPtrSet, st.FunctionChain, st.out⟩ :=
  ⟨fun _ h => h, fun _ h => List.mem_cons_of_mem _ h, rfl, [], by simp, by simp⟩

theorem evolves_report (st : St) (Name : String) :
    Evolves st ⟨st.BasicBlockPtrSet, st.FuncPtrSet, st.FunctionChain,
      st.out ++ [reportLine (st.FunctionChain ++ [Name])]⟩ := by
  refine ⟨fun _ h => h, fun _ h => h, rfl,
    [reportLine (st.FunctionChain ++ [Name])], rfl, ?_⟩
  intro line hl
  rw [List.mem_singleton] at hl
  exact ⟨_, hl⟩

theorem evolves_consF (st : St) (fid : Nat) :
    Evolves st ⟨st.BasicBlockPtrSet, fid :: st.FuncPtrSet,
      st.FunctionChain, st.out⟩ :=
  ⟨fun _ h => List.mem_cons_of_mem _ h, fun _ h => h, rfl, [], by simp, by simp⟩

theorem evolves_push_pop {st stM : St} (fid : Nat) (Name : String)
    (h : Evolves ⟨st.BasicBlockPtrSet, fid :: st.FuncPtrSet,
      st.FunctionChain ++ [Name], st.out⟩ stM) :
    Evolves st ⟨stM.BasicBlockPtrSet, stM.FuncPtrSet,
      stM.FunctionChain.dropLast, stM.out⟩ := by
  obtain ⟨h1, h2, h3, new, h4, h5⟩ := h
  refine ⟨fun a ha => h1 (List.mem_cons_of_mem _ ha), h2, ?_, new, h4, h5⟩
  rw [h3]
  simp

/-- The central invariant: every traversal call evolves the state —
visited sets grow, the chain is restored, output gains only report
lines. -/
theorem traverse_evolves (cfg : Cfg) (env : Env) : ∀ fuel : Nat,
    (∀ fid st, Evolves st (traverseFunction cfg env fuel fid st).2) ∧
    (∀ bid st, Evolves st (traverseBasicBlock cfg env fuel bid st).2) ∧
    (∀ l st, Evolves st (examineBlock cfg env fuel l st).2) ∧
    (∀ l st, Evolves st (traverseBlocks cfg env fuel l st).2) := by
  intro fuel
  induction fuel with
  | zero =>
    exact ⟨fun _ st => evolves_refl st, fun _ st => evolves_refl st,
      fun _ st => evolves_refl st, fun _ st => evolves_refl st⟩
  | succ fuel ih =>
    obtain ⟨ihf, ihb, ihe, ihs⟩ := ih
    refine ⟨?_, ?_, ?_, ?_⟩
    · intro fid st
      by_cases h1 : fid ∈ st.FuncPtrSet
      · rw [traverseFunction_visited cfg env fuel h1]
        exact evolves_refl st
      · cases hF : env.funcs.get? fid with
        | none =>
          rw [traverseFunction_notFound cfg env fuel h1 hF]
          exact evolves_refl st
        | some F =>
          by_cases h2 : resolvedName env F ∈ cfg.SinkFunctionSet
          · rw [traverseFunction_sink cfg env fuel h1 hF h2]
            exact evolves_refl st
          · by_cases h3 : resolvedName env F ∈ cfg.BlackListSet
            · rw [traverseFunction_blacklisted cfg env fuel h1 hF h2 h3]
              exact evolves_report st (resolvedName env F)
            · cases hB : F.body with
              | nil =>
                rw [traverseFunction_noBody cfg env fuel h1 hF h2 h3 hB]
                exact evolves_consF st fid
              | cons entry rest =>
                rw [traverseFunction_descend cfg env fuel h1 hF h2 h3 hB]
                exact evolves_push_pop fid (resolvedName env F)
                  (ihb entry ⟨st.BasicBlockPtrSet, fid :: st.FuncPtrSet,
                    st.FunctionChain ++ [resolvedName env F], st.out⟩)
    · intro bid st
      by_cases h1 : bid ∈ st.BasicBlockPtrSet
      · rw [traverseBasicBlock_visited cfg env fuel h1]
        exact evolves_refl st
      · cases hBk : env.blocks.get? bid with
        | none =>
          rw [traverseBasicBlock_notFound cfg env fuel h1 hBk]
          exact evolves_refl st
        | some B =>
          have hstep : Evolves st (examineBlock cfg env fuel B.insts
              ⟨bid :: st.BasicBlockPtrSet, st.FuncPtrSet, st.FunctionChain, st.out⟩).2 :=
            evolves_trans (evolves_consB st bid) (ihe B.insts _)
          cases hT : B.term with
          | none =>
            rw [traverseBasicBlock_noTerm cfg env fuel h1 hBk hT]
            exact hstep
          | some succs =>
            rw [traverseBasicBlock_term cfg env fuel h1 hBk hT]
            exact evolves_trans hstep (ihs succs _)
    · intro l st
      cases l with
      | nil => exact evolves_refl st
      | cons i rest =>
        cases i with
        | other =>
          rw [examineBlock_other]
          exact ihe rest st
        | call c =>
          cases c with
          | none =>
            rw [examineBlock_callNone]
            exact ihe rest st
          | some fid =>
            rw [examineBlock_call]
            exact evolves_trans (ihf fid st) (ihe rest _)
    · intro l st
      cases l with
      | nil => exact evolves_refl st
      | cons s rest =>
        rw [traverseBlocks_cons]
        exact evolves_trans (ihb s st) (ihs rest _)

/-! ### Fuel stabilization: the analysis terminates -/

/-- One extra unit of fuel does not change the result once the fuel
exceeds the measure-derived bound: the inductive core of termination. -/
theorem traverse_stab (cfg : Cfg) (env : Env) : ∀ fuel : Nat,
    (∀ fid st, (maxLen env + 3) * unvis env st + 1 ≤ fuel →
      traverseFunction cfg env (fuel + 1) fid st = traverseFunction cfg env fuel fid st) ∧
    (∀ bid st, (maxLen env + 3) * unvis env st + 1 ≤ fuel →
      traverseBasicBlock cfg env (fuel + 1) bid st = traverseBasicBlock cfg env fuel bid st) ∧
    (∀ (l : List Inst) (st : St), (maxLen env + 3) * unvis env st + l.length + 1 ≤ fuel →
      examineBlock cfg env (fuel + 1) l st = examineBlock cfg env fuel l st) ∧
    (∀ (l : List Nat) (st : St), (maxLen env + 3) * unvis env st + l.length + 1 ≤ fuel →
      traverseBlocks cfg env (fuel + 1) l st = traverseBlocks cfg env fuel l st) := by
  intro fuel
  induction fuel with
  | zero =>
    exact ⟨fun _ _ h => absurd h (Nat.not_succ_le_zero _),
      fun _ _ h => absurd h (Nat.not_succ_le_zero _),
      fun _ _ h => absurd h (Nat.not_succ_le_zero _),
      fun _ _ h => absurd h (Nat.not_succ_le_zero _)⟩
  | succ fuel ih =>
    obtain ⟨ihf, ihb, ihe, ihs⟩ := ih
    refine ⟨?_, ?_, ?_, ?_⟩
    · intro fid st hΦ
      by_cases h1 : fid ∈ st.FuncPtrSet
      · rw [traverseFunction_visited cfg env (fuel + 1) h1,
          traverseFunction_visited cfg env fuel h1]
      · cases hF : env.funcs.get? fid with
        | none =>
          rw [traverseFunction_notFound cfg env (fuel + 1) h1 hF,
            traverseFunction_notFound cfg env fuel h1 hF]
        | some F =>
          by_cases h2 : resolvedName env F ∈ cfg.SinkFunctionSet
          · rw [traverseFunction_sink cfg env (fuel + 1) h1 hF h2,
              traverseFunction_sink cfg env fuel h1 hF h2]
          · by_cases h3 : resolvedName env F ∈ cfg.BlackListSet
            · rw [traverseFunction_blacklisted cfg env (fuel + 1) h1 hF h2 h3,
                traverseFunction_blacklisted cfg env fuel h1 hF h2 h3]
            · cases hB : F.body with
              | nil =>
                rw [traverseFunction_noBody cfg env (fuel + 1) h1 hF h2 h3 hB,
                  traverseFunction_noBody cfg env fuel h1 hF h2 h3 hB]
              | cons entry rest =>
                rw [traverseFunction_descend cfg env (fuel + 1) h1 hF h2 h3 hB,
                  traverseFunction_descend cfg env fuel h1 hF h2 h3 hB]
                have hlt : fid < env.funcs.length := (List.get?_eq_some.mp hF).1
                have hdec := unvis_consF env st hlt h1
                  (st.FunctionChain ++ [resolvedName env F]) st.out
                have hf2 : (maxLen env + 3) * unvis env st ≤ fuel :=
                  Nat.le_of_succ_le_succ hΦ
                have harg : (maxLen env + 3) *
                    unvis env ⟨st.BasicBlockPtrSet, fid :: st.FuncPtrSet,
                      st.FunctionChain ++ [resolvedName env F], st.out⟩ + 1 ≤ fuel := by
                  have hk0 : 0 + 1 ≤ maxLen env + 3 := by omega
                  have := bound_step hk0 hdec hf2
                  simpa using this
                rw [ihb entry _ harg]
    · intro bid st hΦ
      by_cases h1 : bid ∈ st.BasicBlockPtrSet
      · rw [traverseBasicBlock_visited cfg env (fuel + 1) h1,
          traverseBasicBlock_visited cfg env fuel h1]
      · cases hBk : env.blocks.get? bid with
        | none =>
          rw [traverseBasicBlock_notFound cfg env (fuel + 1) h1 hBk,
            traverseBasicBlock_notFound cfg env fuel h1 hBk]
        | some B =>
          have hlt : bid < env.blocks.length := (List.get?_eq_some.mp hBk).1
          have hdec := unvis_consB env st hlt h1
          have hf2 : (maxLen env + 3) * unvis env st ≤ fuel :=
            Nat.le_of_succ_le_succ hΦ
          have hIL : B.insts.length ≤ maxLen env := insts_length_le env hBk
          have hargE : (maxLen env + 3) *
              unvis env ⟨bid :: st.BasicBlockPtrSet, st.FuncPtrSet,
                st.FunctionChain, st.out⟩ + B.insts.length + 1 ≤ fuel :=
            bound_step (by omega) hdec hf2
          have keyE := ihe B.insts
            ⟨bid :: st.BasicBlockPtrSet, st.FuncPtrSet, st.FunctionChain, st.out⟩ hargE
          cases hT : B.term with
          | none =>
            rw [traverseBasicBlock_noTerm cfg env (fuel + 1) h1 hBk hT,
              traverseBasicBlock_noTerm cfg env fuel h1 hBk hT]
            exact keyE
          | some succs =>
            rw [traverseBasicBlock_term cfg env (fuel + 1) h1 hBk hT,
              traverseBasicBlock_term cfg env fuel h1 hBk hT, keyE]
            have hevA : Evolves
                ⟨bid :: st.BasicBlockPtrSet, st.FuncPtrSet, st.FunctionChain, st.out⟩
                (examineBlock cfg env fuel B.insts
                  ⟨bid :: st.BasicBlockPtrSet, st.FuncPtrSet, st.FunctionChain, st.out⟩).2 :=
              (traverse_evolves cfg env fuel).2.2.1 B.insts _
            have hmA := unvis_mono env hevA
            have hSL : succs.length ≤ maxLen env := succs_length_le env hBk hT
            have hargS : (maxLen env + 3) *
                unvis env (examineBlock cfg env fuel B.insts
                  ⟨bid :: st.BasicBlockPtrSet, st.FuncPtrSet, st.FunctionChain, st.out⟩).2 +
                succs.length + 1 ≤ fuel := by
              refine bound_step (by omega) ?_ hf2
              exact le_trans (Nat.add_le_add_right hmA 1) hdec
            rw [ihs succs _ hargS]
    · intro l st hΦ
      cases l with
      | nil => rfl
      | cons i rest =>
        simp only [List.length_cons] at hΦ
        cases i with
        | other =>
          rw [examineBlock_other, examineBlock_other]
          refine ihe rest st ?_
          generalize (maxLen env + 3) * unvis env st = x at hΦ ⊢
          omega
        | call c =>
          cases c with
          | none =>
            rw [examineBlock_callNone, examineBlock_callNone]
            refine ihe rest st ?_
            generalize (maxLen env + 3) * unvis env st = x at hΦ ⊢
            omega
          | some fid =>
            rw [examineBlock_call, examineBlock_call]
            have hargF : (maxLen env + 3) * unvis env st + 1 ≤ fuel := by
              generalize (maxLen env + 3) * unvis env st = x at hΦ ⊢
              omega
            rw [ihf fid st hargF]
            have hev : Evolves st (traverseFunction cfg env fuel fid st).2 :=
              (traverse_evolves cfg env fuel).1 fid st
            have hm := unvis_mono env hev
            have hargE : (maxLen env + 3) *
                unvis env (traverseFunction cfg env fuel fid st).2 + rest.length + 1 ≤ fuel := by
              have hmul : (maxLen env + 3) * unvis env (traverseFunction cfg env fuel fid st).2 ≤
                  (maxLen env + 3) * unvis env st := mul_le_mul_left' hm _
              generalize (maxLen env + 3) * unvis env (traverseFunction cfg env fuel fid st).2 = x
                at hmul ⊢
              generalize (maxLen env + 3) * unvis env st = y at hmul hΦ
              omega
            rw [ihe rest _ hargE]
    · intro l st hΦ
      cases l with
      | nil => rfl
      | cons s rest =>
        simp only [List.length_cons] at hΦ
        rw [traverseBlocks_cons, traverseBlocks_cons]
        have hargB : (maxLen env + 3) * unvis env st + 1 ≤ fuel := by
          generalize (maxLen env + 3) * unvis env st = x at hΦ ⊢
          omega
        rw [ihb s st hargB]
        have hev : Evolves st (traverseBasicBlock cfg env fuel s st).2 :=
          (traverse_evolves cfg env fuel).2.1 s st
        have hm := unvis_mono env hev
        have hargS : (maxLen env + 3) *
            unvis env (traverseBasicBlock cfg env fuel s st).2 + rest.length + 1 ≤ fuel := by
          have hmul : (maxLen env + 3) * unvis env (traverseBasicBlock cfg env fuel s st).2 ≤
              (maxLen env + 3) * unvis env st := mul_le_mul_left' hm _
          generalize (maxLen env + 3) * unvis env (traverseBasicBlock cfg env fuel s st).2 = x
            at hmul ⊢
          generalize (maxLen env + 3) * unvis env st = y at hmul hΦ
          omega
        rw [ihs rest _ hargS]

/-- Adding fuel beyond `visitBound` does not change the result. -/
theorem traverseFunction_fuelAdd (cfg : Cfg) (env : Env) (fid : Nat) (st : St) :
    ∀ (k fuel : Nat), visitBound env st ≤ fuel →
      traverseFunction cfg env (fuel + k) fid st =
        traverseFunction cfg env fuel fid st := by
  intro k
  induction k with
  | zero => intro fuel _; rfl
  | succ k ih =>
    intro fuel h
    have h1 : visitBound env st ≤ fuel + k := le_trans h (Nat.le_add_right _ _)
    have h2 := (traverse_stab cfg env (fuel + k)).1 fid st
      (by rw [visitBound] at h1; exact h1)
    calc traverseFunction cfg env (fuel + (k + 1)) fid st
        = traverseFunction cfg env ((fuel + k) + 1) fid st := by rw [Nat.add_succ]
      _ = traverseFunction cfg env (fuel + k) fid st := h2
      _ = traverseFunction cfg env fuel fid st := ih fuel h

/-- Any two sufficient fuels give the same traversal result. -/
theorem traverseFunction_fuel_indep (cfg : Cfg) (env : Env) (fid : Nat) (st : St)
    {fuel₁ fuel₂ : Nat} (h₁ : visitBound env st ≤ fuel₁)
    (h₂ : visitBound env st ≤ fuel₂) :
    traverseFunction cfg env fuel₁ fid st =
      traverseFunction cfg env fuel₂ fid st := by
  obtain ⟨k₁, rfl⟩ := Nat.exists_eq_add_of_le h₁
  obtain ⟨k₂, rfl⟩ := Nat.exists_eq_add_of_le h₂
  rw [traverseFunction_fuelAdd cfg env fid st k₁ _ le_rfl,
    traverseFunction_fuelAdd cfg env fid st k₂ _ le_rfl]

/-- A function already in `FuncPtrSet` is never re-entered. -/
theorem traverseFunction_visited_all {fid : Nat} {st : St} (cfg : Cfg) (env : Env)
    (h : fid ∈ st.FuncPtrSet) :
    ∀ fuel, traverseFunction cfg env fuel fid st = (true, st) := by
  intro fuel
  cases fuel with
  | zero => rfl
  | succ fuel => exact traverseFunction_visited cfg env fuel h

/-- A block already in `BasicBlockPtrSet` is never re-entered. -/
theorem traverseBasicBlock_visited_all {bid : Nat} {st : St} (cfg : Cfg) (env : Env)
    (h : bid ∈ st.BasicBlockPtrSet) :
    ∀ fuel, traverseBasicBlock cfg env fuel bid st = (true, st) := by
  intro fuel
  cases fuel with
  | zero => rfl
  | succ fuel => exact traverseBasicBlock_visited cfg env fuel h

/-- A fresh caller whose single-block body directly calls a fresh
black-listed function produces exactly one report, naming the chain
through the caller, and marks only the caller and its block visited. -/
theorem caller_reports (cfg : Cfg) (env : Env) (st : St)
    {k x blk : Nat} {Fk Fx : Func} {Bk : BasicBlock}
    (hFk : env.funcs.get? k = some Fk) (hFx : env.funcs.get? x = some Fx)
    (hbody : Fk.body = [blk]) (hBk : env.blocks.get? blk = some Bk)
    (hinsts : Bk.insts = [.call (some x)]) (hterm : Bk.term = none)
    (hks : resolvedName env Fk ∉ cfg.SinkFunctionSet)
    (hkb : resolvedName env Fk ∉ cfg.BlackListSet)
    (hxs : resolvedName env Fx ∉ cfg.SinkFunctionSet)
    (hxb : resolvedName env Fx ∈ cfg.BlackListSet)
    (hk0 : k ∉ st.FuncPtrSet) (hx0 : x ∉ st.FuncPtrSet) (hxk : x ≠ k)
    (hblk0 : blk ∉ st.BasicBlockPtrSet) (fuel : Nat) :
    traverseFunction cfg env (fuel + 4) k st =
      (false, ⟨blk :: st.BasicBlockPtrSet, k :: st.FuncPtrSet, st.FunctionChain,
        st.out ++ [reportLine (st.FunctionChain ++
          [resolvedName env Fk, resolvedName env Fx])]⟩) := by
  rw [traverseFunction_descend cfg env (fuel + 3) hk0 hFk hks hkb hbody]
  have hblk1 : blk ∉ (⟨st.BasicBlockPtrSet, k :: st.FuncPtrSet,
      st.FunctionChain ++ [resolvedName env Fk], st.out⟩ : St).BasicBlockPtrSet := hblk0
  rw [traverseBasicBlock_noTerm cfg env (fuel + 2) hblk1 hBk hterm]
  dsimp only
  rw [hinsts, examineBlock_call cfg env (fuel + 1) x []]
  have hx1 : x ∉ (⟨blk :: st.BasicBlockPtrSet, k :: st.FuncPtrSet,
      st.FunctionChain ++ [resolvedName env Fk], st.out⟩ : St).FuncPtrSet := by
    simp [hxk, hx0]
  rw [traverseFunction_blacklisted cfg env fuel hx1 hFx hxs hxb]
  dsimp only
  rw [examineBlock_nil]
  simp [List.dropLast_concat]

/-! ### The claims -/

/-- Claim C1: when `traverseFunction` reaches a function whose resolved
display name is blacklisted (the function not being memoized and its name
not a sink), it emits exactly one report containing the full current call
chain ending in that name, restores the chain, returns `false`
(ViolationFound), and does not explore the function's body: the visited
sets are unchanged and no other output is produced, so no call made from
within the blacklisted function ever appears in any chain. -/
theorem claim_C1_blacklist_short_circuit (env : Env) (fid : Nat) (F : Func)
    (st : St) (fuel : Nat)
    (hfresh : fid ∉ st.FuncPtrSet)
    (hF : env.funcs.get? fid = some F)
    (hs : resolvedName env F ∉ theCfg.SinkFunctionSet)
    (hb : resolvedName env F ∈ theCfg.BlackListSet) :
    traverseFunction theCfg env (fuel + 1) fid st =
      (false, ⟨st.BasicBlockPtrSet, st.FuncPtrSet, st.FunctionChain,
        st.out ++ [reportLine (st.FunctionChain ++ [resolvedName env F])]⟩) :=
  traverseFunction_blacklisted theCfg env fuel hfresh hF hs hb

/-- Witness for C1 at a concrete module: visiting `mutex_acquire` itself
reports the one-element chain and leaves all other state unchanged. -/
theorem claim_C1_witness :
    (1 ∉ initSt.FuncPtrSet ∧
     envLinear.funcs.get? 1 = some ⟨"mutex_acquire", []⟩ ∧
     resolvedName envLinear ⟨"mutex_acquire", []⟩ ∉ theCfg.SinkFunctionSet ∧
     resolvedName envLinear ⟨"mutex_acquire", []⟩ ∈ theCfg.BlackListSet) ∧
    traverseFunction theCfg envLinear 1 1 initSt =
      (false, ⟨[], [], [],
        ["Reached a black-listed function via the following call chain: mutex_acquire"]⟩) := by
  refine ⟨⟨by decide, by decide, by decide, by decide⟩, ?_⟩
  have h := claim_C1_blacklist_short_circuit envLinear 1 ⟨"mutex_acquire", []⟩
    initSt 0 (by decide) (by decide) (by decide) (by decide)
  exact h.trans (by decide)

/-- Claim C2: call-chain stack balance — for every invocation of any of
the traversal functions, on every exit path the call chain after the
invocation equals the chain before it; hence the chain seen by a report
is exactly the names pushed by the active DFS frames. -/
theorem claim_C2_chain_balance (env : Env) (fuel : Nat) :
    (∀ fid st, (traverseFunction theCfg env fuel fid st).2.FunctionChain = st.FunctionChain) ∧
    (∀ bid st, (traverseBasicBlock theCfg env fuel bid st).2.FunctionChain = st.FunctionChain) ∧
    (∀ (l : List Inst) (st : St), (examineBlock theCfg env fuel l st).2.FunctionChain = st.FunctionChain) ∧
    (∀ (l : List Nat) (st : St), (traverseBlocks theCfg env fuel l st).2.FunctionChain = st.FunctionChain) :=
  ⟨fun fid st => ((traverse_evolves theCfg env fuel).1 fid st).2.2.1,
   fun bid st => ((traverse_evolves theCfg env fuel).2.1 bid st).2.2.1,
   fun l st => ((traverse_evolves theCfg env fuel).2.2.1 l st).2.2.1,
   fun l st => ((traverse_evolves theCfg env fuel).2.2.2 l st).2.2.1⟩

/-- Claim C3: termination on arbitrary (hence also cyclic) call graphs —
above the computable fuel bound `visitBound` the traversal result is
independent of the fuel; a function or block identity already in its
visited set short-circuits immediately, and the visited sets only grow
(identities are never removed), so each function and block is descended
into at most once. -/
theorem claim_C3_termination (env : Env) (fid bid : Nat) (st : St) :
    (∀ fuel₁ fuel₂, visitBound env st ≤ fuel₁ → visitBound env st ≤ fuel₂ →
      traverseFunction theCfg env fuel₁ fid st = traverseFunction theCfg env fuel₂ fid st) ∧
    (fid ∈ st.FuncPtrSet → ∀ fuel, traverseFunction theCfg env fuel fid st = (true, st)) ∧
    (bid ∈ st.BasicBlockPtrSet → ∀ fuel, traverseBasicBlock theCfg env fuel bid st = (true, st)) ∧
    (∀ fuel, st.FuncPtrSet ⊆ (traverseFunction theCfg env fuel fid st).2.FuncPtrSet ∧
      st.BasicBlockPtrSet ⊆ (traverseFunction theCfg env fuel fid st).2.BasicBlockPtrSet) :=
  ⟨fun _ _ h1 h2 => traverseFunction_fuel_indep theCfg env fid st h1 h2,
   fun h fuel => traverseFunction_visited_all theCfg env h fuel,
   fun h fuel => traverseBasicBlock_visited_all theCfg env h fuel,
   fun fuel => ⟨((traverse_evolves theCfg env fuel).1 fid st).1,
     ((traverse_evolves theCfg env fuel).1 fid st).2.1⟩⟩

/-- Witness for C3 on a directly self-recursive source function: the
result stabilizes at the bound, and memoized identities short-circuit. -/
theorem claim_C3_witness :
    (visitBound envCycle initSt ≤ 9 ∧ visitBound envCycle initSt ≤ 12 ∧
     0 ∈ (⟨[], [0], [], []⟩ : St).FuncPtrSet ∧
     0 ∈ (⟨[0], [], [], []⟩ : St).BasicBlockPtrSet) ∧
    traverseFunction theCfg envCycle 9 0 initSt =
      traverseFunction theCfg envCycle 12 0 initSt ∧
    traverseFunction theCfg envCycle 7 0 ⟨[], [0], [], []⟩ = (true, ⟨[], [0], [], []⟩) ∧
    traverseBasicBlock theCfg envCycle 7 0 ⟨[0], [], [], []⟩ = (true, ⟨[0], [], [], []⟩) ∧
    initSt.FuncPtrSet ⊆ (traverseFunction theCfg envCycle 9 0 initSt).2.FuncPtrSet := by
  refine ⟨⟨by decide, by decide, by decide, by decide⟩, ?_, ?_, ?_, ?_⟩
  · exact (claim_C3_termination envCycle 0 0 initSt).1 9 12 (by decide) (by decide)
  · exact (claim_C3_termination envCycle 0 0 ⟨[], [0], [], []⟩).2.1 (by decide) 7
  · exact (claim_C3_termination envCycle 0 0 ⟨[0], [], [], []⟩).2.2.1 (by decide) 7
  · exact ((claim_C3_termination envCycle 0 0 initSt).2.2.2 9).1

/-- Claim C4: sink absorption — if a visited function's resolved display
name is a sink, the visit returns `true` (Clean) with the state entirely
unchanged: nothing is pushed onto the chain, the body is not descended
into, and no callee past the sink is ever visited or reported, even if
it is blacklisted. -/
theorem claim_C4_sink_absorption (env : Env) (fid : Nat) (F : Func) (st : St)
    (hF : env.funcs.get? fid = some F)
    (hs : resolvedName env F ∈ theCfg.SinkFunctionSet) :
    ∀ fuel, traverseFunction theCfg env fuel fid st = (true, st) := by
  intro fuel
  cases fuel with
  | zero => rfl
  | succ fuel =>
    by_cases h : fid ∈ st.FuncPtrSet
    · exact traverseFunction_visited theCfg env fuel h
    · exact traverseFunction_sink theCfg env fuel h hF hs

/-- Witness for C4: `panic` has a self-calling body, yet visiting it
returns Clean with nothing visited and nothing reported. -/
theorem claim_C4_witness :
    (envSink.funcs.get? 0 = some ⟨"panic", [0]⟩ ∧
     resolvedName envSink ⟨"panic", [0]⟩ ∈ theCfg.SinkFunctionSet) ∧
    traverseFunction theCfg envSink 6 0 initSt = (true, initSt) :=
  ⟨⟨by decide, by decide⟩,
   claim_C4_sink_absorption envSink 0 ⟨"panic", [0]⟩ initSt
    (by decide) (by decide) 6⟩

/-- Claim C5: one report per distinct first-discovered path — two fresh
caller functions that each directly call the same blacklisted function
produce two separate reports, one per chain; the blacklisted function is
never inserted into the visited set, so the second path still reports. -/
theorem claim_C5_per_path_reports (env : Env) (st : St)
    (b c x bb bc : Nat) (Fb Fc Fx : Func)
    (hFb : env.funcs.get? b = some Fb) (hFc : env.funcs.get? c = some Fc)
    (hFx : env.funcs.get? x = some Fx)
    (hbodyB : Fb.body = [bb]) (hbodyC : Fc.body = [bc])
    (hBb : env.blocks.get? bb = some ⟨[.call (some x)], none⟩)
    (hBc : env.blocks.get? bc = some ⟨[.call (some x)], none⟩)
    (hbs : resolvedName env Fb ∉ theCfg.SinkFunctionSet)
    (hbb2 : resolvedName env Fb ∉ theCfg.BlackListSet)
    (hcs : resolvedName env Fc ∉ theCfg.SinkFunctionSet)
    (hcb2 : resolvedName env Fc ∉ theCfg.BlackListSet)
    (hxs : resolvedName env Fx ∉ theCfg.SinkFunctionSet)
    (hxb2 : resolvedName env Fx ∈ theCfg.BlackListSet)
    (hb0 : b ∉ st.FuncPtrSet) (hc0 : c ∉ st.FuncPtrSet) (hx0 : x ∉ st.FuncPtrSet)
    (hbb0 : bb ∉ st.BasicBlockPtrSet) (hbc0 : bc ∉ st.BasicBlockPtrSet)
    (hcb : c ≠ b) (hxb : x ≠ b) (hxc : x ≠ c) (hbcb : bc ≠ bb)
    (fuel : Nat) :
    traverseFunction theCfg env (fuel + 4) b st =
      (false, ⟨bb :: st.BasicBlockPtrSet, b :: st.FuncPtrSet, st.FunctionChain,
        st.out ++ [reportLine (st.FunctionChain ++
          [resolvedName env Fb, resolvedName env Fx])]⟩) ∧
    traverseFunction theCfg env (fuel + 4) c
        ⟨bb :: st.BasicBlockPtrSet, b :: st.FuncPtrSet, st.FunctionChain,
         st.out ++ [reportLine (st.FunctionChain ++
           [resolvedName env Fb, resolvedName env Fx])]⟩ =
      (false, ⟨bc :: bb :: st.BasicBlockPtrSet, c :: b :: st.FuncPtrSet, st.FunctionChain,
        st.out ++ [reportLine (st.FunctionChain ++
            [resolvedName env Fb, resolvedName env Fx]),
          reportLine (st.FunctionChain ++
            [resolvedName env Fc, resolvedName env Fx])]⟩) := by
  constructor
  · exact caller_reports theCfg env st hFb hFx hbodyB hBb rfl rfl
      hbs hbb2 hxs hxb2 hb0 hx0 hxb hbb0 fuel
  · have hc1 : c ∉ (⟨bb :: st.BasicBlockPtrSet, b :: st.FuncPtrSet, st.FunctionChain,
        st.out ++ [reportLine (st.FunctionChain ++
          [resolvedName env Fb, resolvedName env Fx])]⟩ : St).FuncPtrSet := by
      simp [hcb, hc0]
    have hx1 : x ∉ (⟨bb :: st.BasicBlockPtrSet, b :: st.FuncPtrSet, st.FunctionChain,
        st.out ++ [reportLine (st.FunctionChain ++
          [resolvedName env Fb, resolvedName env Fx])]⟩ : St).FuncPtrSet := by
      simp [hxb, hx0]
    have hbc1 : bc ∉ (⟨bb :: st.BasicBlockPtrSet, b :: st.FuncPtrSet, st.FunctionChain,
        st.out ++ [reportLine (st.FunctionChain ++
          [resolvedName env Fb, resolvedName env Fx])]⟩ : St).BasicBlockPtrSet := by
      simp [hbcb, hbc0]
    have h2 := caller_reports theCfg env _ hFc hFx hbodyC hBc rfl rfl
      hcs hcb2 hxs hxb2 hc1 hx1 hxc hbc1 fuel
    rw [h2]
    simp

/-- Witness for C5 on the spec's scenario-4 module: `B` and `C` both call
`mutex_acquire`, and two distinct reports are produced in order. -/
theorem claim_C5_witness :
    (envTwoCallers.funcs.get? 1 = some ⟨"B", [1]⟩ ∧
     envTwoCallers.funcs.get? 2 = some ⟨"C", [2]⟩ ∧
     envTwoCallers.funcs.get? 3 = some ⟨"mutex_acquire", []⟩ ∧
     envTwoCallers.blocks.get? 1 = some ⟨[.call (some 3)], none⟩ ∧
     envTwoCallers.blocks.get? 2 = some ⟨[.call (some 3)], none⟩ ∧
     resolvedName envTwoCallers ⟨"mutex_acquire", []⟩ ∈ theCfg.BlackListSet) ∧
    traverseFunction theCfg envTwoCallers 4 1 initSt =
      (false, ⟨[1], [1], [],
        ["Reached a black-listed function via the following call chain: B mutex_acquire"]⟩) ∧
    traverseFunction theCfg envTwoCallers 4 2
        ⟨[1], [1], [],
         ["Reached a black-listed function via the following call chain: B mutex_acquire"]⟩ =
      (false, ⟨[2, 1], [2, 1], [],
        ["Reached a black-listed function via the following call chain: B mutex_acquire",
         "Reached a black-listed function via the following call chain: C mutex_acquire"]⟩) := by
  have h := claim_C5_per_path_reports envTwoCallers initSt
    1 2 3 1 2 ⟨"B", [1]⟩ ⟨"C", [2]⟩ ⟨"mutex_acquire", []⟩
    (by decide) (by decide) (by decide) (by decide) (by decide) (by decide)
    (by decide) (by decide) (by decide) (by decide) (by decide) (by decide)
    (by decide) (by decide) (by decide) (by decide) (by decide) (by decide)
    (by decide) (by decide) (by decide) (by decide) 0
  refine ⟨⟨by decide, by decide, by decide, by decide, by decide, by decide⟩, ?_, ?_⟩
  · exact h.1.trans (by decide)
  · have h2 := h.2
    rw [show (⟨[1], [1], [],
      ["Reached a black-listed function via the following call chain: B mutex_acquire"]⟩ : St) =
        ⟨1 :: initSt.BasicBlockPtrSet, 1 :: initSt.FuncPtrSet, initSt.FunctionChain,
         initSt.out ++ [reportLine (initSt.FunctionChain ++
           [resolvedName envTwoCallers ⟨"B", [1]⟩,
            resolvedName envTwoCallers ⟨"mutex_acquire", []⟩])]⟩ from by decide]
    exact h2.trans (by decide)

/-- Claim C6: if the configured source function is not found in the
module, the analysis is a silent no-op: the final state is the initial
state and zero report lines are produced. -/
theorem claim_C6_missing_source (env : Env) (fuel : Nat)
    (h : getFunction env theCfg.SourceFunction = none) :
    runOnModule theCfg env fuel = initSt ∧
    (runOnModule theCfg env fuel).out = [] := by
  have he : runOnModule theCfg env fuel = initSt := by
    rw [runOnModule, h]
  exact ⟨he, by rw [he]; rfl⟩

/-- Witness for C6 on a module without `x86_exception_handler`. -/
theorem claim_C6_witness :
    (getFunction envNoSource theCfg.SourceFunction = none) ∧
    runOnModule theCfg envNoSource 5 = initSt ∧
    (runOnModule theCfg envNoSource 5).out = [] :=
  ⟨by decide,
   (claim_C6_missing_source envNoSource 5 (by decide)).1,
   (claim_C6_missing_source envNoSource 5 (by decide)).2⟩

/-- Claim C7: name resolution with demangle fallback — the resolved name
is the demangled name when demangling succeeds and the raw symbol name
unchanged when it fails, and this one resolved name is what is tested
against the sink set and the blacklist and what appears as the chain
entry in an emitted report. -/
theorem claim_C7_demangle_consistency (env : Env) (fid : Nat) (F : Func)
    (st : St) (fuel : Nat)
    (hF : env.funcs.get? fid = some F) (hfresh : fid ∉ st.FuncPtrSet) :
    (∀ d, env.demangle F.name = some d → resolvedName env F = d) ∧
    (env.demangle F.name = none → resolvedName env F = F.name) ∧
    (resolvedName env F ∈ theCfg.SinkFunctionSet →
      traverseFunction theCfg env (fuel + 1) fid st = (true, st)) ∧
    (resolvedName env F ∉ theCfg.SinkFunctionSet →
      resolvedName env F ∈ theCfg.BlackListSet →
      traverseFunction theCfg env (fuel + 1) fid st =
        (false, ⟨st.BasicBlockPtrSet, st.FuncPtrSet, st.FunctionChain,
          st.out ++ [reportLine (st.FunctionChain ++ [resolvedName env F])]⟩)) := by
  refine ⟨?_, ?_, ?_, ?_⟩
  · intro d hd
    rw [resolvedName, hd]
  · intro hd
    rw [resolvedName, hd]
  · intro hs
    exact traverseFunction_sink theCfg env fuel hfresh hF hs
  · intro hs hb
    exact traverseFunction_blacklisted theCfg env fuel hfresh hF hs hb

/-- Witness for C7: a mangled name resolves to its demangled form; a raw
C name resolves to itself and is classified and reported under it. -/
theorem claim_C7_witness :
    (envMangled.funcs.get? 0 = some ⟨"_ZN3Foo3barEv", []⟩ ∧
     envMangled.funcs.get? 1 = some ⟨"mutex_acquire", []⟩ ∧
     envMangled.demangle "_ZN3Foo3barEv" = some "Foo::bar()" ∧
     envMangled.demangle "mutex_acquire" = none) ∧
    resolvedName envMangled ⟨"_ZN3Foo3barEv", []⟩ = "Foo::bar()" ∧
    resolvedName envMangled ⟨"mutex_acquire", []⟩ = "mutex_acquire" ∧
    traverseFunction theCfg envMangled 1 1 initSt =
      (false, ⟨[], [], [],
        ["Reached a black-listed function via the following call chain: mutex_acquire"]⟩) := by
  have h1 := claim_C7_demangle_consistency envMangled 0 ⟨"_ZN3Foo3barEv", []⟩
    initSt 0 (by decide) (by decide)
  have h2 := claim_C7_demangle_consistency envMangled 1 ⟨"mutex_acquire", []⟩
    initSt 0 (by decide) (by decide)
  refine ⟨⟨by decide, by decide, by decide, by decide⟩, ?_, ?_, ?_⟩
  · exact h1.1 "Foo::bar()" (by decide)
  · exact h2.2.1 (by decide)
  · exact (h2.2.2.2 (by decide) (by decide)).trans (by decide)

/-- Claim C8: every line the analysis ever prints is a report line built
by `warnOnCallChain` from some chain — the fixed header followed by the
space-separated names in root-to-leaf order — and no other output is
produced; evaluated concretely on a two-element chain. -/
theorem claim_C8_report_format (env : Env) (fuel : Nat) :
    (∀ line, line ∈ (runOnModule theCfg env fuel).out → ∃ ch, line = reportLine ch) ∧
    reportLine ["x86_exception_handler", "mutex_acquire"] =
      "Reached a black-listed function via the following call chain: x86_exception_handler mutex_acquire" := by
  constructor
  · intro line hl
    rw [runOnModule] at hl
    rcases hg : getFunction env theCfg.SourceFunction with _ | fid
    · rw [hg] at hl
      exact absurd hl (List.not_mem_nil line)
    · rw [hg] at hl
      obtain ⟨_, _, _, new, hout, hsh⟩ := (traverse_evolves theCfg env fuel).1 fid initSt
      rw [hout] at hl
      simp only [initSt, List.nil_append] at hl
      exact hsh line hl
  · rfl

/-- Witness for C8: the concrete line printed for the chain
`x86_exception_handler → mutex_acquire` has exactly the specified form. -/
theorem claim_C8_witness :
    ("Reached a black-listed function via the following call chain: x86_exception_handler mutex_acquire" ∈
      (runOnModule theCfg envLinear 10).out) ∧
    (∃ ch, ("Reached a black-listed function via the following call chain: x86_exception_handler mutex_acquire" : String) =
      reportLine ch) :=
  ⟨by decide, (claim_C8_report_format envLinear 10).1 _ (by decide)⟩

/-- Claim C9: the analysis is deterministic — its result is a pure
function of the module, the demangling oracle and the configuration;
in particular any two runs with sufficient fuel produce identical final
states and hence identical report output. -/
theorem claim_C9_deterministic (env : Env) {fuel₁ fuel₂ : Nat}
    (h₁ : runBound env ≤ fuel₁) (h₂ : runBound env ≤ fuel₂) :
    runOnModule theCfg env fuel₁ = runOnModule theCfg env fuel₂ := by
  rw [runOnModule, runOnModule]
  cases hg : getFunction env theCfg.SourceFunction with
  | none => rfl
  | some fid =>
    dsimp only
    rw [traverseFunction_fuel_indep theCfg env fid initSt h₁ h₂]

/-- Witness for C9: two runs over the same module agree. -/
theorem claim_C9_witness :
    (runBound envLinear ≤ 13 ∧ runBound envLinear ≤ 20) ∧
    runOnModule theCfg envLinear 13 = runOnModule theCfg envLinear 20 :=
  ⟨⟨by decide, by decide⟩, claim_C9_deterministic envLinear (by decide) (by decide)⟩

/-- Claim C10: a function whose resolved display name is both a sink and
blacklisted is treated as a sink — the visit returns Clean with the
state unchanged (no chain push, no report) — because `traverseFunction`
tests sink membership before blacklist membership. -/
theorem claim_C10_sink_precedes_blacklist (cfg : Cfg) (env : Env) (fid : Nat)
    (F : Func) (st : St)
    (hF : env.funcs.get? fid = some F)
    (hs : resolvedName env F ∈ cfg.SinkFunctionSet)
    (hb : resolvedName env F ∈ cfg.BlackListSet) :
    ∀ fuel, traverseFunction cfg env fuel fid st = (true, st) := by
  intro fuel
  cases fuel with
  | zero => rfl
  | succ fuel =>
    by_cases h : fid ∈ st.FuncPtrSet
    · exact traverseFunction_visited cfg env fuel h
    · exact traverseFunction_sink cfg env fuel h hF hs

/-- Witness for C10 with an overlapping configuration: `spin_lock` is
both sink and blacklisted and the visit is silently clean. -/
theorem claim_C10_witness :
    (envOverlap.funcs.get? 0 = some ⟨"spin_lock", []⟩ ∧
     resolvedName envOverlap ⟨"spin_lock", []⟩ ∈ cfgOverlap.SinkFunctionSet ∧
     resolvedName envOverlap ⟨"spin_lock", []⟩ ∈ cfgOverlap.BlackListSet) ∧
    traverseFunction cfgOverlap envOverlap 5 0 initSt = (true, initSt) :=
  ⟨⟨by decide, by decide, by decide⟩,
   claim_C10_sink_precedes_blacklist cfgOverlap envOverlap 0 ⟨"spin_lock", []⟩
    initSt (by decide) (by decide) (by decide) 5⟩

end InterruptContext
